import Mathlib

/-!
Shallow embedding of the ExaEpi spatial-binning and pairwise-transmission
core: the kernels `binaryInteractionWork` (InteractionModWork.H) and
`binaryInteractionNborhood` (InteractionModNborhood.H), the eligibility
predicates, the 1-cell counting-sort bin index, and the per-disease
`interactAgents` bin-scan of both interaction models.

Real-valued quantities (`amrex::Real`, `ParticleReal`) are embedded as
rationals, so the multiplicative accumulator algebra is exact.  The C++
structure-of-arrays particle tile data is a record of attribute maps
indexed by agent id.  The per-agent infection-probability array is a map
`Nat -> Rat`, and a `Gpu::Atomic::Multiply` is one `(index, factor)`
operation applied to it.
-/

/-- Agent health status for one disease (spec section 3). -/
inductive Status where
  | susceptible : Status
  | infected : Status
  | immune : Status
  | dead : Status
deriving DecidableEq, Repr

/-- Per-disease transmission coefficients (`DiseaseParm`): base hazard
`infect`, vaccine efficacy `vac_eff`, workplace coefficient `xmit_work`,
community and neighborhood coefficients indexed by age group, with the
school-cancelled `_SC` variants, and the incubation-length threshold on
the disease counter. -/
structure DiseaseParm where
  infect : ℚ
  vac_eff : ℚ
  xmit_work : ℚ
  xmit_comm : ℕ → ℚ
  xmit_comm_SC : ℕ → ℚ
  xmit_hood : ℕ → ℚ
  xmit_hood_SC : ℕ → ℚ
  incubation_length : ℚ

/-- Structure-of-arrays particle tile data (`ParticleTileData`): one
attribute map per `IntIdx` component used by the kernels, plus the
per-agent per-disease status and disease counter used by the
eligibility predicates.  C++ `int` attributes are embedded as `ℤ`;
`withdrawn` and `workgroup` are tested by C `int` truthiness
(nonzero).  `age_group` is a small nonnegative index, embedded as `ℕ`. -/
structure PTD where
  work_i : ℕ → ℤ
  workgroup : ℕ → ℤ
  withdrawn : ℕ → ℤ
  age_group : ℕ → ℕ
  nborhood : ℕ → ℤ
  school : ℕ → ℤ
  status : ℕ → ℕ → Status
  disease_counter : ℕ → ℕ → ℚ

/-- One atomic multiply (`Gpu::Atomic::Multiply(&a_prob_ptr[j], prob)`)
applied to the probability array: multiply entry `j` by the factor. -/
def atomicMultiply (p : ℕ → ℚ) (j : ℕ) (v : ℚ) : ℕ → ℚ :=
  fun k => if k = j then p k * v else p k

/-- Apply a sequence of atomic multiplies to the probability array. -/
def applyAtomicOps (ops : List (ℕ × ℚ)) (p : ℕ → ℚ) : ℕ → ℚ :=
  ops.foldl (fun acc op => atomicMultiply acc op.1 op.2) p

/-- Local factor `prob` computed by `binaryInteractionWork` before its
single atomic commit (InteractionModWork.H lines 37-44): starts at 1 and
is multiplied by `1 - infect*vac_eff*xmit_work*work_scale` exactly when
the transmitter has a workgroup (nonzero) and a valid work location,
and the receiver has a valid work location and the same workgroup. -/
def workPairFactor (a_i a_j : ℕ) (ptd : PTD) (lparm : DiseaseParm)
    (a_work_scale : ℚ) : ℚ :=
  let infect := lparm.infect * lparm.vac_eff
  if ptd.workgroup a_i ≠ 0 ∧ 0 ≤ ptd.work_i a_i then
    if 0 ≤ ptd.work_i a_j ∧ ptd.workgroup a_i = ptd.workgroup a_j then
      1 - infect * lparm.xmit_work * a_work_scale
    else 1
  else 1

/-- Atomic operations performed by `binaryInteractionWork`
(InteractionModWork.H lines 26-47): none when either agent is
withdrawn (early return, line 33), otherwise exactly one atomic
multiply of the target entry `a_j` by the local factor (line 46). -/
def binaryInteractionWorkOps (a_i a_j : ℕ) (ptd : PTD) (lparm : DiseaseParm)
    (a_work_scale : ℚ) : List (ℕ × ℚ) :=
  if ptd.withdrawn a_i ≠ 0 ∨ ptd.withdrawn a_j ≠ 0 then []
  else [(a_j, workPairFactor a_i a_j ptd lparm a_work_scale)]

/-- Effect of `binaryInteractionWork` on the probability array: apply
its atomic operations. -/
def binaryInteractionWork (a_i a_j : ℕ) (ptd : PTD) (lparm : DiseaseParm)
    (a_work_scale : ℚ) (a_prob : ℕ → ℚ) : ℕ → ℚ :=
  applyAtomicOps (binaryInteractionWorkOps a_i a_j ptd lparm a_work_scale) a_prob

/-- Community factor of `binaryInteractionNborhood`
(InteractionModNborhood.H lines 310-314): always applied; the rate
array is `xmit_comm_SC` when the transmitter is not attending school
today (`school < 0`), else `xmit_comm`, indexed by the receiver's age
group. -/
def nborhoodCommFactor (a_i a_j : ℕ) (ptd : PTD) (lparm : DiseaseParm)
    (a_social_scale : ℚ) : ℚ :=
  let infect := lparm.infect * lparm.vac_eff
  if ptd.school a_i < 0 then
    1 - infect * lparm.xmit_comm_SC (ptd.age_group a_j) * a_social_scale
  else
    1 - infect * lparm.xmit_comm (ptd.age_group a_j) * a_social_scale

/-- Neighborhood factor of `binaryInteractionNborhood`
(InteractionModNborhood.H lines 316-323): applied only when the two
agents have the same neighborhood id, with the same school-based
selection from `xmit_hood_SC` / `xmit_hood`. -/
def nborhoodHoodFactor (a_i a_j : ℕ) (ptd : PTD) (lparm : DiseaseParm)
    (a_social_scale : ℚ) : ℚ :=
  let infect := lparm.infect * lparm.vac_eff
  if ptd.nborhood a_i = ptd.nborhood a_j then
    if ptd.school a_i < 0 then
      1 - infect * lparm.xmit_hood_SC (ptd.age_group a_j) * a_social_scale
    else
      1 - infect * lparm.xmit_hood (ptd.age_group a_j) * a_social_scale
  else 1

/-- Atomic operations performed by `binaryInteractionNborhood`
(InteractionModNborhood.H lines 293-326): none when either agent is
withdrawn (line 302), otherwise one atomic multiply of entry `a_j` by
the locally composed product of the community and neighborhood factors
(line 325). -/
def binaryInteractionNborhoodOps (a_i a_j : ℕ) (ptd : PTD)
    (lparm : DiseaseParm) (a_social_scale : ℚ) : List (ℕ × ℚ) :=
  if ptd.withdrawn a_i ≠ 0 ∨ ptd.withdrawn a_j ≠ 0 then []
  else [(a_j, nborhoodCommFactor a_i a_j ptd lparm a_social_scale *
              nborhoodHoodFactor a_i a_j ptd lparm a_social_scale)]

/-- Effect of `binaryInteractionNborhood` on the probability array. -/
def binaryInteractionNborhood (a_i a_j : ℕ) (ptd : PTD) (lparm : DiseaseParm)
    (a_social_scale : ℚ) (a_prob : ℕ → ℚ) : ℕ → ℚ :=
  applyAtomicOps (binaryInteractionNborhoodOps a_i a_j ptd lparm a_social_scale) a_prob

/-- Modelled from the spec: `notSusceptible(agent, disease)` lives in
AgentDefinitions.H, which is not part of this repository snapshot; the
spec (section 4.2) defines it as status Immune, or status Infected with
the disease counter below the incubation length for that disease. -/
def notSusceptible (ptd : PTD) (lparm : DiseaseParm) (i d : ℕ) : Bool :=
  ptd.status i d = Status.immune ∨
    (ptd.status i d = Status.infected ∧
      ptd.disease_counter i d < lparm.incubation_length)

/-- Modelled from the spec: `isInfectious(agent, disease)` lives in
AgentDefinitions.H, which is not part of this repository snapshot; the
spec (section 4.2) defines it as status Infected with the disease
counter at or above the incubation length. -/
def isInfectious (ptd : PTD) (lparm : DiseaseParm) (i d : ℕ) : Bool :=
  ptd.status i d = Status.infected ∧
    lparm.incubation_length ≤ ptd.disease_counter i d

/-- Agents of one bin: the agent ids below `numAgents` whose flat cell
id is `c`, in increasing id order. -/
def binGroup (cellOf : ℕ → ℕ) (numAgents c : ℕ) : List ℕ :=
  (List.range numAgents).filter (fun i => cellOf i = c)

/-- Per-cell count of the counting sort. -/
def binCount (cellOf : ℕ → ℕ) (numAgents c : ℕ) : ℕ :=
  (binGroup cellOf numAgents c).length

/-- Modelled from the spec: the offsets array of
`amrex::DenseBins::build` (not part of this repository snapshot; spec
section 4.1): prefix sums of the per-cell counts, so `binOffset c` is
the starting location of cell `c` in the bin-sorted permutation. -/
def binOffset (cellOf : ℕ → ℕ) (numAgents : ℕ) : ℕ → ℕ
  | 0 => 0
  | c + 1 => binOffset cellOf numAgents c + binCount cellOf numAgents c

/-- Modelled from the spec: the bin-sorted permutation array of
`amrex::DenseBins::build` (not part of this repository snapshot; spec
section 4.1): agent ids grouped by flat cell id, cell by cell — the
result of scattering agent ids with per-cell running counters. -/
def binPermutation (cellOf : ℕ → ℕ) (numAgents numCells : ℕ) : List ℕ :=
  ((List.range numCells).map (binGroup cellOf numAgents)).flatten

/-- The slice of the bin-sorted permutation between `offsets[c]` and
`offsets[c+1]` — the neighbor range scanned for an agent of cell `c`
(InteractionModWork.H lines 145-147 and 154). -/
def binCellSlice (cellOf : ℕ → ℕ) (numAgents numCells c : ℕ) : List ℕ :=
  ((binPermutation cellOf numAgents numCells).drop
      (binOffset cellOf numAgents c)).take
    (binOffset cellOf numAgents (c + 1) - binOffset cellOf numAgents c)

/-- Kernel invocations `(source, target)` of one `interactAgents` pass
for one disease (InteractionModWork.H lines 140-166 and the identical
scan of InteractionModNborhood.H lines 417-443): one unit of work per
entry of the bin-sorted permutation; a not-susceptible target is
skipped; otherwise every other agent of the same cell slice that is
infectious is a source. -/
def interactionPairs (cellOf : ℕ → ℕ) (numAgents numCells : ℕ) (ptd : PTD)
    (lparm : DiseaseParm) (d : ℕ) : List (ℕ × ℕ) :=
  ((binPermutation cellOf numAgents numCells).map (fun i =>
    if notSusceptible ptd lparm i d then []
    else (binCellSlice cellOf numAgents numCells (cellOf i)).filterMap
      (fun j =>
        if j = i then none
        else if isInfectious ptd lparm j d then some (j, i) else none))).flatten

/-- One `InteractionModWork::interactAgents` pass over one tile for one
disease: fold the workplace kernel over all its invocations, with the
constant work scale 1 (InteractionModWork.H line 162). -/
def interactAgentsWork (cellOf : ℕ → ℕ) (numAgents numCells : ℕ) (ptd : PTD)
    (lparm : DiseaseParm) (d : ℕ) (prob : ℕ → ℚ) : ℕ → ℚ :=
  (interactionPairs cellOf numAgents numCells ptd lparm d).foldl
    (fun p ji => binaryInteractionWork ji.1 ji.2 ptd lparm 1 p) prob

/-- One `InteractionModNborhood::interactAgents` pass over one tile for
one disease, with the constant social scale 1
(InteractionModNborhood.H line 439). -/
def interactAgentsNborhood (cellOf : ℕ → ℕ) (numAgents numCells : ℕ)
    (ptd : PTD) (lparm : DiseaseParm) (d : ℕ) (prob : ℕ → ℚ) : ℕ → ℚ :=
  (interactionPairs cellOf numAgents numCells ptd lparm d).foldl
    (fun p ji => binaryInteractionNborhood ji.1 ji.2 ptd lparm 1 p) prob

/-- Disease parameters of the spec's workplace scenarios: infect 1/2,
vac_eff 1, xmit_work 1/10. -/
def scenParm : DiseaseParm :=
  ⟨1/2, 1, 1/10, fun _ => 0, fun _ => 0, fun _ => 0, fun _ => 0, 2⟩

/-- Two co-workers: both at a valid work location, both in workgroup 5,
neither withdrawn. -/
def ptdWork : PTD :=
  { work_i := fun _ => 0
    workgroup := fun _ => 5
    withdrawn := fun _ => 0
    age_group := fun _ => 0
    nborhood := fun _ => 0
    school := fun _ => 0
    status := fun _ _ => Status.susceptible
    disease_counter := fun _ _ => 0 }

/-- Agents 0 and 1 with valid work locations but workgroups 5 and 7. -/
def ptdWorkMismatch : PTD :=
  { ptdWork with workgroup := fun n => if n = 0 then 5 else 7 }

/-- Agent 0 at a valid work location with workgroup 5; agent 1 with the
same workgroup 5 but an invalid work location (work_i = -1). -/
def ptdWorkTargetNoLoc : PTD :=
  { ptdWork with work_i := fun n => if n = 0 then 0 else -1 }

/-- Agent 0 is withdrawn; agent 1 is not. -/
def ptdWithdrawn : PTD :=
  { ptdWork with withdrawn := fun n => if n = 0 then 1 else 0 }

/-- The overall factor by which one workplace-kernel call multiplies
the target entry: 1 when either agent is withdrawn, otherwise the
workplace pair factor. -/
def workSourceFactor (a_i a_j : ℕ) (ptd : PTD) (lparm : DiseaseParm)
    (s : ℚ) : ℚ :=
  if ptd.withdrawn a_i ≠ 0 ∨ ptd.withdrawn a_j ≠ 0 then 1
  else workPairFactor a_i a_j ptd lparm s

/-- The overall factor by which one neighborhood-kernel call multiplies
the target entry. -/
def nborhoodSourceFactor (a_i a_j : ℕ) (ptd : PTD) (lparm : DiseaseParm)
    (s : ℚ) : ℚ :=
  if ptd.withdrawn a_i ≠ 0 ∨ ptd.withdrawn a_j ≠ 0 then 1
  else nborhoodCommFactor a_i a_j ptd lparm s *
       nborhoodHoodFactor a_i a_j ptd lparm s

lemma binaryInteractionWork_target (a_i a_j : ℕ) (ptd : PTD)
    (lparm : DiseaseParm) (s : ℚ) (prob : ℕ → ℚ) :
    binaryInteractionWork a_i a_j ptd lparm s prob a_j =
      prob a_j * workSourceFactor a_i a_j ptd lparm s := by
  unfold binaryInteractionWork binaryInteractionWorkOps workSourceFactor
  split
  · simp [applyAtomicOps]
  · simp [applyAtomicOps, atomicMultiply]

lemma binaryInteractionWork_other (a_i a_j k : ℕ) (ptd : PTD)
    (lparm : DiseaseParm) (s : ℚ) (prob : ℕ → ℚ) (hk : k ≠ a_j) :
    binaryInteractionWork a_i a_j ptd lparm s prob k = prob k := by
  unfold binaryInteractionWork binaryInteractionWorkOps
  split
  · simp [applyAtomicOps]
  · simp [applyAtomicOps, atomicMultiply, hk]

lemma binaryInteractionNborhood_target (a_i a_j : ℕ) (ptd : PTD)
    (lparm : DiseaseParm) (s : ℚ) (prob : ℕ → ℚ) :
    binaryInteractionNborhood a_i a_j ptd lparm s prob a_j =
      prob a_j * nborhoodSourceFactor a_i a_j ptd lparm s := by
  unfold binaryInteractionNborhood binaryInteractionNborhoodOps nborhoodSourceFactor
  split
  · simp [applyAtomicOps]
  · simp [applyAtomicOps, atomicMultiply]

lemma binaryInteractionNborhood_other (a_i a_j k : ℕ) (ptd : PTD)
    (lparm : DiseaseParm) (s : ℚ) (prob : ℕ → ℚ) (hk : k ≠ a_j) :
    binaryInteractionNborhood a_i a_j ptd lparm s prob k = prob k := by
  unfold binaryInteractionNborhood binaryInteractionNborhoodOps
  split
  · simp [applyAtomicOps]
  · simp [applyAtomicOps, atomicMultiply, hk]

lemma workSourceFactor_not_withdrawn (a_i a_j : ℕ) (ptd : PTD)
    (lparm : DiseaseParm) (s : ℚ) (hwi : ptd.withdrawn a_i = 0)
    (hwj : ptd.withdrawn a_j = 0) :
    workSourceFactor a_i a_j ptd lparm s = workPairFactor a_i a_j ptd lparm s := by
  unfold workSourceFactor
  simp [hwi, hwj]

lemma nborhoodSourceFactor_not_withdrawn (a_i a_j : ℕ) (ptd : PTD)
    (lparm : DiseaseParm) (s : ℚ) (hwi : ptd.withdrawn a_i = 0)
    (hwj : ptd.withdrawn a_j = 0) :
    nborhoodSourceFactor a_i a_j ptd lparm s =
      nborhoodCommFactor a_i a_j ptd lparm s *
        nborhoodHoodFactor a_i a_j ptd lparm s := by
  unfold nborhoodSourceFactor
  simp [hwi, hwj]

lemma workPairFactor_of_no_match (a_i a_j : ℕ) (ptd : PTD)
    (lparm : DiseaseParm) (s : ℚ)
    (h : ¬(ptd.workgroup a_i ≠ 0 ∧ 0 ≤ ptd.work_i a_i ∧ 0 ≤ ptd.work_i a_j ∧
        ptd.workgroup a_i = ptd.workgroup a_j)) :
    workPairFactor a_i a_j ptd lparm s = 1 := by
  unfold workPairFactor
  split
  · next h1 =>
    split
    · next h2 => exact absurd ⟨h1.1, h1.2, h2.1, h2.2⟩ h
    · rfl
  · rfl

lemma workPairFactor_of_match (a_i a_j : ℕ) (ptd : PTD)
    (lparm : DiseaseParm) (s : ℚ)
    (h : ptd.workgroup a_i ≠ 0 ∧ 0 ≤ ptd.work_i a_i ∧ 0 ≤ ptd.work_i a_j ∧
        ptd.workgroup a_i = ptd.workgroup a_j) :
    workPairFactor a_i a_j ptd lparm s =
      1 - lparm.infect * lparm.vac_eff * lparm.xmit_work * s := by
  unfold workPairFactor
  rw [if_pos ⟨h.1, h.2.1⟩, if_pos ⟨h.2.2.1, h.2.2.2⟩]


/-- C1 (counterexample): with agent 0 (workgroup 5, valid work location,
not withdrawn) as source and agent 1 (workgroup 5, work_i = -1, not
withdrawn) as target, every condition the claim requires for the
multiply holds and the multiplying factor is not 1, yet the kernel
leaves the target accumulator at 1: the claim omits the code's
requirement that the target's work location be valid. -/
theorem workKernel_target_valid_required_cex :
    (ptdWorkTargetNoLoc.withdrawn 0 = 0 ∧ ptdWorkTargetNoLoc.withdrawn 1 = 0 ∧
      ptdWorkTargetNoLoc.workgroup 0 ≠ 0 ∧ 0 ≤ ptdWorkTargetNoLoc.work_i 0 ∧
      ptdWorkTargetNoLoc.workgroup 0 = ptdWorkTargetNoLoc.workgroup 1) ∧
    binaryInteractionWork 0 1 ptdWorkTargetNoLoc scenParm 1 (fun _ => 1) 1 = 1 ∧
    (1 : ℚ) * (1 - scenParm.infect * scenParm.vac_eff * scenParm.xmit_work * 1) ≠ 1 := by
  refine ⟨⟨rfl, rfl, by decide, by decide, rfl⟩, ?_, by norm_num [scenParm]⟩
  rw [binaryInteractionWork_target,
    workSourceFactor_not_withdrawn 0 1 _ _ _ rfl rfl,
    workPairFactor_of_no_match]
  · norm_num
  · intro h
    have := h.2.2.1
    simp [ptdWorkTargetNoLoc, ptdWork] at this

/-- C1 (amended): for a non-withdrawn source/target pair, the workplace
kernel multiplies the target's accumulator by
(1 - infect*vac_eff*xmit_work*scale) exactly when the source has a
valid work location and a nonzero workgroup, the target has a valid
work location, and the workgroups are equal; in every other case the
target's entry — and every other entry — is unchanged. -/
theorem binaryInteractionWork_spec (a_i a_j : ℕ) (ptd : PTD)
    (lparm : DiseaseParm) (s : ℚ) (prob : ℕ → ℚ)
    (hwi : ptd.withdrawn a_i = 0) (hwj : ptd.withdrawn a_j = 0) :
    (binaryInteractionWork a_i a_j ptd lparm s prob a_j =
      if ptd.workgroup a_i ≠ 0 ∧ 0 ≤ ptd.work_i a_i ∧ 0 ≤ ptd.work_i a_j ∧
          ptd.workgroup a_i = ptd.workgroup a_j
      then prob a_j * (1 - lparm.infect * lparm.vac_eff * lparm.xmit_work * s)
      else prob a_j) ∧
    ∀ k, k ≠ a_j → binaryInteractionWork a_i a_j ptd lparm s prob k = prob k := by
  constructor
  · rw [binaryInteractionWork_target, workSourceFactor_not_withdrawn _ _ _ _ _ hwi hwj]
    split
    · next h => rw [workPairFactor_of_match _ _ _ _ _ h]
    · next h => rw [workPairFactor_of_no_match _ _ _ _ _ h, mul_one]
  · intro k hk
    exact binaryInteractionWork_other _ _ _ _ _ _ _ hk

/-- C1 (witness): the two spec scenarios — matching workgroup 5 with
both work locations valid gives accumulator 19/20 = 0.95, workgroups
5 vs 7 leaves it at 1. -/
theorem binaryInteractionWork_spec_witness :
    ptdWork.withdrawn 0 = 0 ∧ ptdWork.withdrawn 1 = 0 ∧
    ptdWorkMismatch.withdrawn 0 = 0 ∧ ptdWorkMismatch.withdrawn 1 = 0 ∧
    binaryInteractionWork 0 1 ptdWork scenParm 1 (fun _ => 1) 1 = 19/20 ∧
    binaryInteractionWork 0 1 ptdWorkMismatch scenParm 1 (fun _ => 1) 1 = 1 := by
  refine ⟨rfl, rfl, rfl, rfl, ?_, ?_⟩
  · rw [(binaryInteractionWork_spec 0 1 ptdWork scenParm 1 (fun _ => 1) rfl rfl).1]
    rw [if_pos (by refine ⟨by decide, by decide, by decide, rfl⟩)]
    norm_num [scenParm]
  · rw [(binaryInteractionWork_spec 0 1 ptdWorkMismatch scenParm 1 (fun _ => 1) rfl rfl).1]
    rw [if_neg (by intro h; simpa [ptdWorkMismatch, ptdWork] using h.2.2.2)]

/-- Agents 0 and 1 in the same neighborhood, the source attending
school, distinct community and neighborhood rates at the target's age
group 1. -/
def ptdNbor : PTD :=
  { ptdWork with age_group := fun n => if n = 0 then 0 else 1 }

/-- Disease parameters for the neighborhood scenario: hazard 1/2, age-
indexed community rate 1/5 and neighborhood rate 1/4 at age group 1. -/
def nborParm : DiseaseParm :=
  ⟨1/2, 1, 1/10, fun a => if a = 1 then 1/5 else 0, fun _ => 7/10,
    fun a => if a = 1 then 1/4 else 0, fun _ => 9/10, 2⟩

/-- C2: for a non-withdrawn source/target pair, the neighborhood kernel
multiplies the target's entry by the community factor — rate array
chosen by whether the source attends school (school >= 0 picks
xmit_comm, else xmit_comm_SC), indexed by the target's age group — and
additionally by the neighborhood factor (chosen the same way from
xmit_hood/xmit_hood_SC) exactly when the two neighborhood ids are
equal; other entries are unchanged. -/
theorem binaryInteractionNborhood_spec (a_i a_j : ℕ) (ptd : PTD)
    (lparm : DiseaseParm) (s : ℚ) (prob : ℕ → ℚ)
    (hwi : ptd.withdrawn a_i = 0) (hwj : ptd.withdrawn a_j = 0) :
    (binaryInteractionNborhood a_i a_j ptd lparm s prob a_j =
      prob a_j *
        (1 - lparm.infect * lparm.vac_eff *
          (if 0 ≤ ptd.school a_i then lparm.xmit_comm (ptd.age_group a_j)
           else lparm.xmit_comm_SC (ptd.age_group a_j)) * s) *
        (if ptd.nborhood a_i = ptd.nborhood a_j then
          1 - lparm.infect * lparm.vac_eff *
            (if 0 ≤ ptd.school a_i then lparm.xmit_hood (ptd.age_group a_j)
             else lparm.xmit_hood_SC (ptd.age_group a_j)) * s
         else 1)) ∧
    ∀ k, k ≠ a_j → binaryInteractionNborhood a_i a_j ptd lparm s prob k = prob k := by
  constructor
  · rw [binaryInteractionNborhood_target,
      nborhoodSourceFactor_not_withdrawn _ _ _ _ _ hwi hwj, ← mul_assoc]
    have hcomm : nborhoodCommFactor a_i a_j ptd lparm s =
        1 - lparm.infect * lparm.vac_eff *
          (if 0 ≤ ptd.school a_i then lparm.xmit_comm (ptd.age_group a_j)
           else lparm.xmit_comm_SC (ptd.age_group a_j)) * s := by
      unfold nborhoodCommFactor
      rcases lt_or_le (ptd.school a_i) 0 with hs | hs
      · rw [if_pos hs, if_neg (not_le.mpr hs)]
      · rw [if_neg (not_lt.mpr hs), if_pos hs]
    have hhood : nborhoodHoodFactor a_i a_j ptd lparm s =
        (if ptd.nborhood a_i = ptd.nborhood a_j then
          1 - lparm.infect * lparm.vac_eff *
            (if 0 ≤ ptd.school a_i then lparm.xmit_hood (ptd.age_group a_j)
             else lparm.xmit_hood_SC (ptd.age_group a_j)) * s
         else 1) := by
      unfold nborhoodHoodFactor
      rcases lt_or_le (ptd.school a_i) 0 with hs | hs
      · simp only [if_pos hs, if_neg (not_le.mpr hs)]
      · simp only [if_neg (not_lt.mpr hs), if_pos hs]
    rw [hcomm, hhood]
  · intro k hk
    exact binaryInteractionNborhood_other _ _ _ _ _ _ _ hk

/-- C2 (witness): source attending school, shared neighborhood, target
age group 1: the accumulator becomes
(1 - (1/2)(1/5)) * (1 - (1/2)(1/4)) = (9/10)*(7/8) = 63/80. -/
theorem binaryInteractionNborhood_spec_witness :
    ptdNbor.withdrawn 0 = 0 ∧ ptdNbor.withdrawn 1 = 0 ∧
    0 ≤ ptdNbor.school 0 ∧ ptdNbor.nborhood 0 = ptdNbor.nborhood 1 ∧
    binaryInteractionNborhood 0 1 ptdNbor nborParm 1 (fun _ => 1) 1 =
      (1 - nborParm.infect * nborParm.vac_eff * nborParm.xmit_comm (ptdNbor.age_group 1)) *
        (1 - nborParm.infect * nborParm.vac_eff * nborParm.xmit_hood (ptdNbor.age_group 1)) := by
  refine ⟨rfl, rfl, by decide, rfl, ?_⟩
  rw [(binaryInteractionNborhood_spec 0 1 ptdNbor nborParm 1 (fun _ => 1) rfl rfl).1]
  rw [if_pos (show 0 ≤ ptdNbor.school 0 by decide),
    if_pos (show ptdNbor.nborhood 0 = ptdNbor.nborhood 1 from rfl),
    if_pos (show 0 ≤ ptdNbor.school 0 by decide)]
  norm_num [ptdNbor, ptdWork, nborParm]

/-- C3: when either agent is withdrawn, both kernels leave the whole
probability array unchanged, whatever the workgroup, neighborhood,
school, and age data are. -/
theorem kernels_withdrawn_no_effect (a_i a_j : ℕ) (ptd : PTD)
    (lparm : DiseaseParm) (s₁ s₂ : ℚ) (prob : ℕ → ℚ)
    (h : ptd.withdrawn a_i ≠ 0 ∨ ptd.withdrawn a_j ≠ 0) :
    binaryInteractionWork a_i a_j ptd lparm s₁ prob = prob ∧
    binaryInteractionNborhood a_i a_j ptd lparm s₂ prob = prob := by
  constructor
  · unfold binaryInteractionWork binaryInteractionWorkOps
    rw [if_pos h]
    rfl
  · unfold binaryInteractionNborhood binaryInteractionNborhoodOps
    rw [if_pos h]
    rfl

/-- C3 (witness): agent 0 withdrawn, agent 1 not: both kernels are the
identity on the accumulator array. -/
theorem kernels_withdrawn_no_effect_witness :
    ptdWithdrawn.withdrawn 0 ≠ 0 ∧
    binaryInteractionWork 0 1 ptdWithdrawn scenParm 1 (fun _ => 1) = (fun _ => 1) ∧
    binaryInteractionNborhood 0 1 ptdWithdrawn scenParm 1 (fun _ => 1) = (fun _ => 1) :=
  ⟨by decide,
    (kernels_withdrawn_no_effect 0 1 ptdWithdrawn scenParm 1 1 (fun _ => 1)
      (Or.inl (by decide))).1,
    (kernels_withdrawn_no_effect 0 1 ptdWithdrawn scenParm 1 1 (fun _ => 1)
      (Or.inl (by decide))).2⟩

/-- Malformed disease parameters with infect*vac_eff*rate exceeding 1:
hazard 3, xmit_work 1, xmit_comm 1 at every age group, xmit_hood 0. -/
def hotParm : DiseaseParm :=
  ⟨3, 1, 1, fun _ => 1, fun _ => 1, fun _ => 0, fun _ => 0, 1⟩

/-- C6: neither kernel clamps the per-pair factor to [0,1]: with
hazard*rate*scale = 3 > 1 both kernels turn the positive accumulator
entry 1 into a negative value, flipping the sign of the product. -/
theorem kernels_unclamped_sign_flip :
    1 < hotParm.infect * hotParm.vac_eff * hotParm.xmit_work * 1 ∧
    1 < hotParm.infect * hotParm.vac_eff * hotParm.xmit_comm (ptdWork.age_group 1) * 1 ∧
    (0 : ℚ) < (fun _ => (1:ℚ)) 1 ∧
    binaryInteractionWork 0 1 ptdWork hotParm 1 (fun _ => 1) 1 < 0 ∧
    binaryInteractionNborhood 0 1 ptdWork hotParm 1 (fun _ => 1) 1 < 0 := by
  refine ⟨by norm_num [hotParm], by norm_num [hotParm, ptdWork], by norm_num, ?_, ?_⟩
  · rw [binaryInteractionWork_target, workSourceFactor_not_withdrawn 0 1 _ _ _ rfl rfl,
      workPairFactor_of_match 0 1 _ _ _ ⟨by decide, by decide, by decide, rfl⟩]
    norm_num [hotParm]
  · rw [binaryInteractionNborhood_target,
      nborhoodSourceFactor_not_withdrawn 0 1 _ _ _ rfl rfl]
    have h1 : nborhoodCommFactor 0 1 ptdWork hotParm 1 = -2 := by
      unfold nborhoodCommFactor
      rw [if_neg (by decide)]
      norm_num [hotParm, ptdWork]
    have h2 : nborhoodHoodFactor 0 1 ptdWork hotParm 1 = 1 := by
      unfold nborhoodHoodFactor
      rw [if_pos (show ptdWork.nborhood 0 = ptdWork.nborhood 1 from rfl),
        if_neg (show ¬ptdWork.school 0 < 0 by decide)]
      norm_num [hotParm, ptdWork]
    rw [h1, h2]
    norm_num

/-- C9: the workplace kernel changes the target's accumulator entry
only when the source's workgroup id is nonzero, the source's work
location is valid, the target's work location is valid, and the two
workgroup ids are equal. -/
theorem workKernel_change_conditions (a_i a_j : ℕ) (ptd : PTD)
    (lparm : DiseaseParm) (s : ℚ) (prob : ℕ → ℚ)
    (h : binaryInteractionWork a_i a_j ptd lparm s prob a_j ≠ prob a_j) :
    ptd.workgroup a_i ≠ 0 ∧ 0 ≤ ptd.work_i a_i ∧ 0 ≤ ptd.work_i a_j ∧
      ptd.workgroup a_i = ptd.workgroup a_j := by
  by_contra hc
  apply h
  rw [binaryInteractionWork_target]
  rcases eq_or_ne (ptd.withdrawn a_i) 0 with hwi | hwi
  · rcases eq_or_ne (ptd.withdrawn a_j) 0 with hwj | hwj
    · rw [workSourceFactor_not_withdrawn _ _ _ _ _ hwi hwj,
        workPairFactor_of_no_match _ _ _ _ _ hc, mul_one]
    · unfold workSourceFactor
      rw [if_pos (Or.inr hwj), mul_one]
  · unfold workSourceFactor
    rw [if_pos (Or.inl hwi), mul_one]

/-- C9 (witness): matching workgroup 5 with both locations valid does
change the entry (1 becomes 19/20), and the four conditions hold. -/
theorem workKernel_change_conditions_witness :
    binaryInteractionWork 0 1 ptdWork scenParm 1 (fun _ => 1) 1 ≠ (fun _ => (1:ℚ)) 1 ∧
    (ptdWork.workgroup 0 ≠ 0 ∧ 0 ≤ ptdWork.work_i 0 ∧ 0 ≤ ptdWork.work_i 1 ∧
      ptdWork.workgroup 0 = ptdWork.workgroup 1) := by
  have hval : binaryInteractionWork 0 1 ptdWork scenParm 1 (fun _ => 1) 1 = 19/20 := by
    rw [binaryInteractionWork_target, workSourceFactor_not_withdrawn 0 1 _ _ _ rfl rfl,
      workPairFactor_of_match 0 1 _ _ _ ⟨by decide, by decide, by decide, rfl⟩]
    norm_num [scenParm]
  have hne : binaryInteractionWork 0 1 ptdWork scenParm 1 (fun _ => 1) 1 ≠ (fun _ => (1:ℚ)) 1 := by
    rw [hval]; norm_num
  exact ⟨hne, workKernel_change_conditions 0 1 ptdWork scenParm 1 (fun _ => 1) hne⟩

/-- C10: when neither party is withdrawn each kernel performs exactly
one atomic multiply on the target's entry — the workplace kernel with
its pair factor (which is 1 when no transmission condition matches),
the neighborhood kernel with the community and neighborhood factors
composed into one local product — and when either party is withdrawn
neither kernel performs any atomic operation. -/
theorem kernels_single_atomic (a_i a_j : ℕ) (ptd : PTD)
    (lparm : DiseaseParm) (s₁ s₂ : ℚ) :
    (ptd.withdrawn a_i = 0 ∧ ptd.withdrawn a_j = 0 →
      binaryInteractionWorkOps a_i a_j ptd lparm s₁ =
        [(a_j, workPairFactor a_i a_j ptd lparm s₁)] ∧
      binaryInteractionNborhoodOps a_i a_j ptd lparm s₂ =
        [(a_j, nborhoodCommFactor a_i a_j ptd lparm s₂ *
               nborhoodHoodFactor a_i a_j ptd lparm s₂)]) ∧
    ((ptd.withdrawn a_i ≠ 0 ∨ ptd.withdrawn a_j ≠ 0) →
      binaryInteractionWorkOps a_i a_j ptd lparm s₁ = [] ∧
      binaryInteractionNborhoodOps a_i a_j ptd lparm s₂ = []) ∧
    (¬(ptd.workgroup a_i ≠ 0 ∧ 0 ≤ ptd.work_i a_i ∧ 0 ≤ ptd.work_i a_j ∧
        ptd.workgroup a_i = ptd.workgroup a_j) →
      workPairFactor a_i a_j ptd lparm s₁ = 1) := by
  refine ⟨fun hw => ?_, fun hw => ?_, fun h => workPairFactor_of_no_match _ _ _ _ _ h⟩
  · unfold binaryInteractionWorkOps binaryInteractionNborhoodOps
    rw [if_neg (by simp [hw.1, hw.2]), if_neg (by simp [hw.1, hw.2])]
    exact ⟨rfl, rfl⟩
  · unfold binaryInteractionWorkOps binaryInteractionNborhoodOps
    rw [if_pos hw, if_pos hw]
    exact ⟨rfl, rfl⟩

/-- C10 (witness): for the co-worker pair the workplace kernel commits
exactly the single atomic multiply (1, 19/20), and with agent 0
withdrawn it commits none. -/
theorem kernels_single_atomic_witness :
    (ptdWork.withdrawn 0 = 0 ∧ ptdWork.withdrawn 1 = 0) ∧
    binaryInteractionWorkOps 0 1 ptdWork scenParm 1 = [(1, 19/20)] ∧
    ptdWithdrawn.withdrawn 0 ≠ 0 ∧
    binaryInteractionWorkOps 0 1 ptdWithdrawn scenParm 1 = [] ∧
    binaryInteractionNborhoodOps 0 1 ptdWithdrawn scenParm 1 = [] := by
  refine ⟨⟨rfl, rfl⟩, ?_, by decide, ?_, ?_⟩
  · rw [(kernels_single_atomic 0 1 ptdWork scenParm 1 1).1 ⟨rfl, rfl⟩ |>.1,
      workPairFactor_of_match 0 1 _ _ _ ⟨by decide, by decide, by decide, rfl⟩]
    norm_num [scenParm]
  · exact ((kernels_single_atomic 0 1 ptdWithdrawn scenParm 1 1).2.1 (Or.inl (by decide))).1
  · exact ((kernels_single_atomic 0 1 ptdWithdrawn scenParm 1 1).2.1 (Or.inl (by decide))).2

lemma foldWork_target (t : ℕ) (srcs : List ℕ) (ptd : PTD)
    (lparm : DiseaseParm) (s : ℚ) (prob : ℕ → ℚ) :
    (srcs.foldl (fun p j => binaryInteractionWork j t ptd lparm s p) prob) t =
      prob t * (srcs.map (fun j => workSourceFactor j t ptd lparm s)).prod := by
  induction srcs generalizing prob with
  | nil => simp
  | cons j srcs ih =>
    simp only [List.foldl_cons, List.map_cons, List.prod_cons]
    rw [ih, binaryInteractionWork_target]
    ring

lemma foldNborhood_target (t : ℕ) (srcs : List ℕ) (ptd : PTD)
    (lparm : DiseaseParm) (s : ℚ) (prob : ℕ → ℚ) :
    (srcs.foldl (fun p j => binaryInteractionNborhood j t ptd lparm s p) prob) t =
      prob t * (srcs.map (fun j => nborhoodSourceFactor j t ptd lparm s)).prod := by
  induction srcs generalizing prob with
  | nil => simp
  | cons j srcs ih =>
    simp only [List.foldl_cons, List.map_cons, List.prod_cons]
    rw [ih, binaryInteractionNborhood_target]
    ring

/-- C7: for a fixed target and a fixed multiset of sources, applying
the pairwise kernel updates in any order yields the same final
accumulator entry: the accumulated product is invariant under
permutation of the factors.  Holds exactly over the rational
embedding of the reals. -/
theorem accumulator_order_invariant (t : ℕ) (srcs₁ srcs₂ : List ℕ)
    (ptd : PTD) (lparm : DiseaseParm) (s : ℚ) (prob : ℕ → ℚ)
    (h : srcs₁.Perm srcs₂) :
    (srcs₁.foldl (fun p j => binaryInteractionWork j t ptd lparm s p) prob) t =
      (srcs₂.foldl (fun p j => binaryInteractionWork j t ptd lparm s p) prob) t ∧
    (srcs₁.foldl (fun p j => binaryInteractionNborhood j t ptd lparm s p) prob) t =
      (srcs₂.foldl (fun p j => binaryInteractionNborhood j t ptd lparm s p) prob) t := by
  constructor
  · rw [foldWork_target, foldWork_target,
      (h.map (fun j => workSourceFactor j t ptd lparm s)).prod_eq]
  · rw [foldNborhood_target, foldNborhood_target,
      (h.map (fun j => nborhoodSourceFactor j t ptd lparm s)).prod_eq]

/-- C7 (witness): sources [1, 2] and [2, 1] acting on target 0 give the
same final entry for both kernels. -/
theorem accumulator_order_invariant_witness :
    ([1, 2] : List ℕ).Perm [2, 1] ∧
    (([1, 2] : List ℕ).foldl
        (fun p j => binaryInteractionWork j 0 ptdWork scenParm 1 p) (fun _ => 1)) 0 =
      (([2, 1] : List ℕ).foldl
        (fun p j => binaryInteractionWork j 0 ptdWork scenParm 1 p) (fun _ => 1)) 0 ∧
    (([1, 2] : List ℕ).foldl
        (fun p j => binaryInteractionNborhood j 0 ptdWork scenParm 1 p) (fun _ => 1)) 0 =
      (([2, 1] : List ℕ).foldl
        (fun p j => binaryInteractionNborhood j 0 ptdWork scenParm 1 p) (fun _ => 1)) 0 := by
  have hp : ([1, 2] : List ℕ).Perm [2, 1] := by decide
  exact ⟨hp,
    (accumulator_order_invariant 0 [1, 2] [2, 1] ptdWork scenParm 1 (fun _ => 1) hp).1,
    (accumulator_order_invariant 0 [1, 2] [2, 1] ptdWork scenParm 1 (fun _ => 1) hp).2⟩

lemma binPermutation_zero (cellOf : ℕ → ℕ) (N : ℕ) :
    binPermutation cellOf N 0 = [] := rfl

lemma binPermutation_succ (cellOf : ℕ → ℕ) (N M : ℕ) :
    binPermutation cellOf N (M + 1) =
      binPermutation cellOf N M ++ binGroup cellOf N M := by
  unfold binPermutation
  rw [List.range_succ, List.map_append, List.flatten_append]
  simp

lemma length_binPermutation (cellOf : ℕ → ℕ) (N M : ℕ) :
    (binPermutation cellOf N M).length = binOffset cellOf N M := by
  induction M with
  | zero => rfl
  | succ M ih =>
    rw [binPermutation_succ, List.length_append, ih]
    rfl

lemma mem_binGroup {cellOf : ℕ → ℕ} {N c a : ℕ} :
    a ∈ binGroup cellOf N c ↔ a < N ∧ cellOf a = c := by
  simp [binGroup, List.mem_filter, List.mem_range]

lemma nodup_binGroup (cellOf : ℕ → ℕ) (N c : ℕ) :
    (binGroup cellOf N c).Nodup :=
  (List.nodup_range N).filter _

lemma count_binGroup (cellOf : ℕ → ℕ) (N c a : ℕ) :
    (binGroup cellOf N c).count a = if a < N ∧ cellOf a = c then 1 else 0 := by
  split
  · next h => exact List.count_eq_one_of_mem (nodup_binGroup cellOf N c) (mem_binGroup.2 h)
  · next h => exact List.count_eq_zero_of_not_mem (fun hm => h (mem_binGroup.1 hm))

lemma count_binPermutation (cellOf : ℕ → ℕ) (N M a : ℕ) :
    (binPermutation cellOf N M).count a =
      if a < N ∧ cellOf a < M then 1 else 0 := by
  induction M with
  | zero => simp [binPermutation_zero]
  | succ M ih =>
    rw [binPermutation_succ, List.count_append, ih, count_binGroup]
    split_ifs <;> omega

lemma binPermutation_perm_range (cellOf : ℕ → ℕ) (N M : ℕ)
    (h : ∀ i < N, cellOf i < M) :
    (binPermutation cellOf N M).Perm (List.range N) := by
  rw [List.perm_iff_count]
  intro a
  rw [count_binPermutation]
  by_cases ha : a < N
  · rw [if_pos ⟨ha, h a ha⟩,
      List.count_eq_one_of_mem (List.nodup_range N) (List.mem_range.2 ha)]
  · rw [if_neg (fun hc => ha hc.1),
      List.count_eq_zero_of_not_mem (fun hm => ha (List.mem_range.1 hm))]

lemma binOffset_le_succ (cellOf : ℕ → ℕ) (N c : ℕ) :
    binOffset cellOf N c ≤ binOffset cellOf N (c + 1) :=
  Nat.le_add_right _ _

lemma binOffset_mono (cellOf : ℕ → ℕ) (N : ℕ) {c₁ c₂ : ℕ} (h : c₁ ≤ c₂) :
    binOffset cellOf N c₁ ≤ binOffset cellOf N c₂ := by
  induction c₂ with
  | zero =>
    have : c₁ = 0 := Nat.le_zero.1 h
    simp [this]
  | succ c ih =>
    have hcase : c₁ ≤ c ∨ c₁ = c + 1 := by omega
    rcases hcase with h1 | h1
    · exact le_trans (ih h1) (binOffset_le_succ cellOf N c)
    · rw [h1]

lemma binOffset_top (cellOf : ℕ → ℕ) (N M : ℕ) (h : ∀ i < N, cellOf i < M) :
    binOffset cellOf N M = N := by
  rw [← length_binPermutation]
  rw [(binPermutation_perm_range cellOf N M h).length_eq, List.length_range]

lemma binPermutation_decomp (cellOf : ℕ → ℕ) (N : ℕ) {c M : ℕ} (hc : c < M) :
    ∃ suf, binPermutation cellOf N M =
      binPermutation cellOf N c ++ (binGroup cellOf N c ++ suf) := by
  induction M with
  | zero => omega
  | succ M ih =>
    rcases Nat.lt_succ_iff_lt_or_eq.1 hc with h1 | h1
    · obtain ⟨suf, hsuf⟩ := ih h1
      refine ⟨suf ++ binGroup cellOf N M, ?_⟩
      rw [binPermutation_succ, hsuf]
      simp [List.append_assoc]
    · refine ⟨[], ?_⟩
      rw [binPermutation_succ, h1]
      simp

lemma binCellSlice_eq (cellOf : ℕ → ℕ) (N : ℕ) {c M : ℕ} (hc : c < M) :
    binCellSlice cellOf N M c = binGroup cellOf N c := by
  obtain ⟨suf, hsuf⟩ := binPermutation_decomp cellOf N hc
  unfold binCellSlice
  rw [hsuf]
  have hoff : binOffset cellOf N (c + 1) - binOffset cellOf N c =
      binCount cellOf N c := by
    show binOffset cellOf N c + binCount cellOf N c - binOffset cellOf N c = _
    omega
  rw [hoff, ← length_binPermutation cellOf N c, List.drop_left]
  have : binCount cellOf N c = (binGroup cellOf N c).length := rfl
  rw [this, List.take_left]

lemma getD_append_left (l₁ l₂ : List ℕ) (n : ℕ) (h : n < l₁.length) :
    (l₁ ++ l₂).getD n 0 = l₁.getD n 0 := by
  rw [List.getD_eq_getElem _ 0 (by rw [List.length_append]; omega),
    List.getD_eq_getElem _ 0 h]
  exact List.getElem_append_left h

lemma getD_append_right (l₁ l₂ : List ℕ) (n : ℕ) (h₁ : l₁.length ≤ n)
    (h₂ : n < l₁.length + l₂.length) :
    (l₁ ++ l₂).getD n 0 = l₂.getD (n - l₁.length) 0 := by
  rw [List.getD_eq_getElem _ 0 (by rw [List.length_append]; omega),
    List.getD_eq_getElem _ 0 (by omega)]
  exact List.getElem_append_right h₁

lemma getD_mem (l : List ℕ) (n : ℕ) (h : n < l.length) : l.getD n 0 ∈ l := by
  rw [List.getD_eq_getElem l 0 h]
  exact List.getElem_mem h

lemma binPermutation_cell_at (cellOf : ℕ → ℕ) (N : ℕ) {c M k : ℕ}
    (hc : c < M) (hk1 : binOffset cellOf N c ≤ k)
    (hk2 : k < binOffset cellOf N (c + 1)) :
    cellOf ((binPermutation cellOf N M).getD k 0) = c := by
  obtain ⟨suf, hsuf⟩ := binPermutation_decomp cellOf N hc
  have hlen : (binPermutation cellOf N c).length = binOffset cellOf N c :=
    length_binPermutation cellOf N c
  have hcnt : k - binOffset cellOf N c < (binGroup cellOf N c).length := by
    have : binOffset cellOf N (c + 1) =
        binOffset cellOf N c + binCount cellOf N c := rfl
    unfold binCount at this
    omega
  rw [hsuf, getD_append_right _ _ _ (by omega)
      (by rw [hlen, List.length_append]; omega), hlen,
    getD_append_left _ _ _ hcnt]
  exact (mem_binGroup.1 (getD_mem _ _ hcnt)).2

/-- C8: for any agent positions with every flat cell id inside the
domain, the counting-sort bin index satisfies its invariants: the
permutation array is a permutation of [0, N); the offsets array is
non-decreasing; the per-cell counts sum to N (the final offset is N);
and each position of the permutation array holds an agent whose
recomputed flat cell id is exactly the cell whose offset range
contains that position. -/
theorem binIndex_invariants (cellOf : ℕ → ℕ) (N M : ℕ)
    (h : ∀ i < N, cellOf i < M) :
    (binPermutation cellOf N M).Perm (List.range N) ∧
    (∀ c₁ c₂, c₁ ≤ c₂ → binOffset cellOf N c₁ ≤ binOffset cellOf N c₂) ∧
    binOffset cellOf N M = N ∧
    (∀ c < M, ∀ k, binOffset cellOf N c ≤ k → k < binOffset cellOf N (c + 1) →
      cellOf ((binPermutation cellOf N M).getD k 0) = c) :=
  ⟨binPermutation_perm_range cellOf N M h,
    fun _ _ hc => binOffset_mono cellOf N hc,
    binOffset_top cellOf N M h,
    fun _ hc _ hk1 hk2 => binPermutation_cell_at cellOf N hc hk1 hk2⟩

/-- C8 (witness): three agents in two cells under cellOf i = i % 2: the
permutation [0, 2, 1] is a permutation of range 3 with offsets summing
to 3. -/
theorem binIndex_invariants_witness :
    (∀ i < 3, i % 2 < 2) ∧
    ((binPermutation (fun i => i % 2) 3 2).Perm (List.range 3) ∧
      (∀ c₁ c₂, c₁ ≤ c₂ →
        binOffset (fun i => i % 2) 3 c₁ ≤ binOffset (fun i => i % 2) 3 c₂) ∧
      binOffset (fun i => i % 2) 3 2 = 3 ∧
      (∀ c < 2, ∀ k, binOffset (fun i => i % 2) 3 c ≤ k →
        k < binOffset (fun i => i % 2) 3 (c + 1) →
        (fun i => i % 2) ((binPermutation (fun i => i % 2) 3 2).getD k 0) = c)) :=
  ⟨fun i _ => Nat.mod_lt i (by norm_num),
    binIndex_invariants (fun i => i % 2) 3 2 (fun i _ => Nat.mod_lt i (by norm_num))⟩

lemma mem_binPermutation_lt {cellOf : ℕ → ℕ} {N M a : ℕ}
    (ha : a ∈ binPermutation cellOf N M) : a < N := by
  unfold binPermutation at ha
  rw [List.mem_flatten] at ha
  obtain ⟨l, hl, hal⟩ := ha
  rw [List.mem_map] at hl
  obtain ⟨c, _, rfl⟩ := hl
  exact (mem_binGroup.1 hal).1

lemma interactionPairs_mem_elim {cellOf : ℕ → ℕ} {N M : ℕ} {ptd : PTD}
    {lparm : DiseaseParm} {d : ℕ} {p : ℕ × ℕ}
    (hp : p ∈ interactionPairs cellOf N M ptd lparm d) :
    ∃ i j, p = (j, i) ∧ i ∈ binPermutation cellOf N M ∧
      notSusceptible ptd lparm i d = false ∧
      j ∈ binCellSlice cellOf N M (cellOf i) ∧ j ≠ i ∧
      isInfectious ptd lparm j d = true := by
  unfold interactionPairs at hp
  rw [List.mem_flatten] at hp
  obtain ⟨l, hl, hpl⟩ := hp
  rw [List.mem_map] at hl
  obtain ⟨i, hi, rfl⟩ := hl
  by_cases hns : notSusceptible ptd lparm i d = true
  · rw [if_pos hns] at hpl
    cases hpl
  · rw [if_neg hns] at hpl
    rw [List.mem_filterMap] at hpl
    obtain ⟨j, hj, hgj⟩ := hpl
    by_cases hji : j = i
    · rw [if_pos hji] at hgj
      cases hgj
    · rw [if_neg hji] at hgj
      by_cases hinf : isInfectious ptd lparm j d = true
      · rw [if_pos hinf] at hgj
        exact ⟨i, j, (Option.some.inj hgj).symm, hi,
          Bool.not_eq_true _ ▸ hns, hj, hji, hinf⟩
      · rw [if_neg hinf] at hgj
        cases hgj

/-- C5: under in-domain cell ids, every kernel invocation of an
interactAgents pass has source distinct from target, source and target
binned in the same 1-cell bucket, and an infectious source. -/
theorem interactionPairs_sound (cellOf : ℕ → ℕ) (N M : ℕ) (ptd : PTD)
    (lparm : DiseaseParm) (d : ℕ) (h : ∀ i < N, cellOf i < M)
    (p : ℕ × ℕ) (hp : p ∈ interactionPairs cellOf N M ptd lparm d) :
    p.1 ≠ p.2 ∧ cellOf p.1 = cellOf p.2 ∧
      isInfectious ptd lparm p.1 d = true := by
  obtain ⟨i, j, hpe, hi, _, hj, hji, hinf⟩ := interactionPairs_mem_elim hp
  subst hpe
  have hcell : cellOf i < M := h i (mem_binPermutation_lt hi)
  rw [binCellSlice_eq cellOf N hcell] at hj
  exact ⟨hji, (mem_binGroup.1 hj).2, hinf⟩

lemma foldl_work_frame (ptd : PTD) (lparm : DiseaseParm) (s : ℚ)
    (l : List (ℕ × ℕ)) (prob : ℕ → ℚ) (i : ℕ) (h : ∀ p ∈ l, p.2 ≠ i) :
    (l.foldl (fun p ji => binaryInteractionWork ji.1 ji.2 ptd lparm s p) prob) i
      = prob i := by
  induction l generalizing prob with
  | nil => rfl
  | cons q l ih =>
    rw [List.foldl_cons, ih _ (fun p hp => h p (List.mem_cons_of_mem q hp))]
    exact binaryInteractionWork_other _ _ _ _ _ _ _
      (Ne.symm (h q (List.mem_cons_self q l)))

lemma foldl_nborhood_frame (ptd : PTD) (lparm : DiseaseParm) (s : ℚ)
    (l : List (ℕ × ℕ)) (prob : ℕ → ℚ) (i : ℕ) (h : ∀ p ∈ l, p.2 ≠ i) :
    (l.foldl (fun p ji => binaryInteractionNborhood ji.1 ji.2 ptd lparm s p) prob) i
      = prob i := by
  induction l generalizing prob with
  | nil => rfl
  | cons q l ih =>
    rw [List.foldl_cons, ih _ (fun p hp => h p (List.mem_cons_of_mem q hp))]
    exact binaryInteractionNborhood_other _ _ _ _ _ _ _
      (Ne.symm (h q (List.mem_cons_self q l)))

/-- C4: a not-susceptible agent's accumulator entry is unchanged by a
full interactAgents pass of either interaction model, whatever the
other agents in its bin are. -/
theorem interactAgents_notSusceptible_frame (cellOf : ℕ → ℕ) (N M : ℕ)
    (ptd : PTD) (lparm : DiseaseParm) (d : ℕ) (prob : ℕ → ℚ) (i : ℕ)
    (h : notSusceptible ptd lparm i d = true) :
    interactAgentsWork cellOf N M ptd lparm d prob i = prob i ∧
    interactAgentsNborhood cellOf N M ptd lparm d prob i = prob i := by
  have htgt : ∀ p ∈ interactionPairs cellOf N M ptd lparm d, p.2 ≠ i := by
    intro p hp hpi
    obtain ⟨i', j, hpe, _, hns, _⟩ := interactionPairs_mem_elim hp
    rw [hpe] at hpi
    simp only at hpi
    rw [hpi] at hns
    rw [h] at hns
    cases hns
  exact ⟨foldl_work_frame ptd lparm 1 _ prob i htgt,
    foldl_nborhood_frame ptd lparm 1 _ prob i htgt⟩

/-- Three agents sharing one cell: agent 0 susceptible, agent 1
infected past incubation, agent 2 immune. -/
def ptdPair : PTD :=
  { work_i := fun _ => 0
    workgroup := fun _ => 5
    withdrawn := fun _ => 0
    age_group := fun _ => 0
    nborhood := fun _ => 0
    school := fun _ => 0
    status := fun i _ =>
      if i = 1 then Status.infected
      else if i = 2 then Status.immune else Status.susceptible
    disease_counter := fun i _ => if i = 1 then 2 else 0 }

/-- C5 (witness): with three agents in one cell, the invocation
(source 1, target 0) occurs and satisfies source distinct from
target, same cell, infectious source. -/
theorem interactionPairs_sound_witness :
    (∀ i < 3, (fun _ : ℕ => 0) i < 1) ∧
    (1, 0) ∈ interactionPairs (fun _ => 0) 3 1 ptdPair scenParm 0 ∧
    ((1, 0) : ℕ × ℕ).1 ≠ ((1, 0) : ℕ × ℕ).2 ∧
    (fun _ : ℕ => 0) ((1, 0) : ℕ × ℕ).1 = (fun _ : ℕ => 0) ((1, 0) : ℕ × ℕ).2 ∧
    isInfectious ptdPair scenParm ((1, 0) : ℕ × ℕ).1 0 = true :=
  ⟨fun _ _ => Nat.one_pos, by decide,
    interactionPairs_sound (fun _ => 0) 3 1 ptdPair scenParm 0
      (fun _ _ => Nat.one_pos) (1, 0) (by decide)⟩

/-- C4 (witness): immune agent 2's accumulator entry is unchanged by a
full pass of either interaction model over the shared cell. -/
theorem interactAgents_notSusceptible_frame_witness :
    notSusceptible ptdPair scenParm 2 0 = true ∧
    interactAgentsWork (fun _ => 0) 3 1 ptdPair scenParm 0 (fun _ => 1) 2 =
      (fun _ => (1:ℚ)) 2 ∧
    interactAgentsNborhood (fun _ => 0) 3 1 ptdPair scenParm 0 (fun _ => 1) 2 =
      (fun _ => (1:ℚ)) 2 :=
  ⟨by decide,
    (interactAgents_notSusceptible_frame (fun _ => 0) 3 1 ptdPair scenParm 0
      (fun _ => 1) 2 (by decide)).1,
    (interactAgents_notSusceptible_frame (fun _ => 0) 3 1 ptdPair scenParm 0
      (fun _ => 1) 2 (by decide)).2⟩
